import Mathlib

/-!
Verification development for the portfolio-tracker dashboard (`src/main.py`).

The program is a single-page Streamlit app.  Its computational core — the
"valuation engine" of the specification — lives at `main.py` lines 72-138:
window derivation, benchmark fetch, per-holding fetch/alignment/validation,
portfolio aggregation, and KPI computation.  The add-stock form is at lines
218-251 and the gateway helpers (`fetch_price`, `fetch_series`, `fetch_52w`)
at lines 48-66.

Modelling conventions:
* calendar dates and trading dates are integers (epoch-day ordinals); the
  engine only compares dates, takes minima/maxima and subtracts day counts,
  so this is faithful to Python `date` arithmetic;
* prices and currency amounts are rationals (`ℚ`): the Python floats carry
  exact decimal inputs in all scenarios of interest, and the spec's claims
  are about the exact arithmetic of the formulas;
* a pandas `Series` of closes is a list of (date, value) pairs in index
  order; a reindexed series with missing entries (`NaN`) is a list of
  (date, `Option` value) pairs, `none` standing for `NaN`;
* `yf.download` is an abstract gateway function supplied as a parameter;
  an empty download (`df.empty`) is `none` / the empty list;
* `st.warning(...) ; st.stop()` aborts the render cycle with a message and
  no partial result: it is modelled as `Except.error` with the error
  taxonomy of the specification (the payload is the holding's `Stock`
  display name, which is what the warning message interpolates);
* Python `round(x, 2)` is modelled as rounding `100*x` to the nearest
  integer.  (Python rounds exact halves to even; no value in this
  development sits on an exact half, where all rounding modes agree.)
-/

/-- Python `round(x, 2)`: round to 2 decimal places. -/
def round2 (x : ℚ) : ℚ := (round (x * 100) : ℤ) / 100

/-- The benchmark symbol (`main.py` line 11). -/
def BENCHMARK : String := "^NSEI"

/-- The lookback map of `main.py` line 13: `PERIOD_MAP = 5D:5, 1M:21, 6M:126, 1Y:252, 3Y:756`. -/
def PERIOD_MAP : List (String × ℤ) :=
  [("5D", 5), ("1M", 21), ("6M", 126), ("1Y", 252), ("3Y", 756)]

/-- A pandas Series of closes: (trading-date, close) pairs in index order. -/
abbrev Series := List (ℤ × ℚ)

/-- Exact positional lookup of a date in a series (pandas `s[d]`, `NaN` as `none`). -/
def lookup (s : Series) (d : ℤ) : Option ℚ := (s.find? (fun p => p.1 == d)).map (·.2)

/-- pandas `Series.ffill` on a series with missing values: each `none` is
replaced by the most recent earlier value, carried in the accumulator. -/
def ffill : List (ℤ × Option ℚ) → Option ℚ → List (ℤ × Option ℚ)
  | [], _ => []
  | (d, v) :: rest, carry =>
    match v with
    | some x => (d, some x) :: ffill rest (some x)
    | none => (d, carry) :: ffill rest carry

/-- pandas `Series.dropna`: keep only the entries that have a value. -/
def dropna (l : List (ℤ × Option ℚ)) : Series := l.filterMap (fun p => p.2.map ((p.1, ·)))

/-- pandas `s.reindex(dates).ffill()` (`main.py` lines 97 and 126): project a
series onto a new date index — `none` where the series lacks the date — then
forward-fill. -/
def reindexFfill (s : Series) (dates : List ℤ) : List (ℤ × Option ℚ) :=
  ffill (dates.map (fun d => (d, lookup s d))) none

/-- Line 97 of `main.py`: `close.reindex(dates).ffill().dropna()`. -/
def alignSeries (s : Series) (dates : List ℤ) : Series := dropna (reindexFfill s dates)

/-- Specification-style description of the alignment (§4.2 step 3 of the
spec), written independently of the `ffill` recursion: walking the index
with `seen` the dates already passed, the value at date `d` is the close at
the most recent index date up to `d` for which the holding has data, and a
date with no such data yet (leading gap) is dropped. -/
def alignSpecGo (s : Series) : List ℤ → List ℤ → Series
  | _, [] => []
  | seen, d :: rest =>
    match ((seen ++ [d]).filterMap (fun e => lookup s e)).getLast? with
    | some v => (d, v) :: alignSpecGo s (seen ++ [d]) rest
    | none => alignSpecGo s (seen ++ [d]) rest

/-- The spec-side alignment over a whole index. -/
def alignSpec (s : Series) (dates : List ℤ) : Series := alignSpecGo s [] dates

/-- The sorted, duplicate-free union of the date indices: the index produced
by `pd.concat(portfolio_series, axis=1)` (outer join, `main.py` line 121). -/
def unionDates (ls : List Series) : List ℤ :=
  ((ls.flatMap (fun s => s.map (·.1))).dedup).insertionSort (· ≤ ·)

/-- pandas `DataFrame.sum(axis=1)` at one date with the default
`skipna=True`: the sum of the values of the series that have this date;
a missing value contributes nothing. -/
def sumAt (ls : List Series) (d : ℤ) : ℚ := (ls.filterMap (fun s => lookup s d)).sum

/-- Line 121 of `main.py`: `pd.concat(portfolio_series, axis=1).sum(axis=1).dropna()`.
`concat` outer-joins the date indices; `sum(axis=1)` (default `skipna=True`)
adds the present values of each row, so it always yields a number and the
trailing `dropna` removes nothing. -/
def concatSum (ls : List Series) : Series :=
  (unionDates ls).map (fun d => (d, sumAt ls d))

/-- A portfolio line item: the dict appended at `main.py` lines 244-250
(`Stock`, `Symbol`, `Qty`, `Buy Price`, `Buy Date`).  The date type is a
parameter: the engine compares epoch-day integers, the add-stock form
builds a year/month/day value. -/
structure Holding (δ : Type) where
  stock : String
  symbol : String
  qty : ℤ
  buyPrice : ℚ
  buyDate : δ
deriving DecidableEq

/-- The terminal outcomes of the engine (`st.warning(...); st.stop()`), named
after the spec's error taxonomy; each carries the `Stock` display name the
warning message interpolates. -/
inductive EngineError
  | BenchmarkUnavailable
  | HoldingDataUnavailable (stock : String)
  | InsufficientHoldingData (stock : String)
  | InsufficientAlignedData
deriving DecidableEq

/-- One row of the portfolio table (`main.py` lines 111-116). -/
structure HRow where
  stock : String
  qty : ℤ
  buy : ℚ
  cmp : ℚ
  invested : ℚ
  current : ℚ
  pl : ℚ
  plPct : ℚ
  hi52 : Option ℚ
  lo52 : Option ℚ
deriving DecidableEq

/-- pandas `s.iloc[-1]` on a series the engine has already checked to be nonempty. -/
def lastVal (s : Series) : ℚ := ((s.getLast?).map (·.2)).getD 0

/-- pandas `s.iloc[-2]` on a series the engine has already checked to have ≥ 2 points. -/
def prevVal (s : Series) : ℚ := ((s.dropLast.getLast?).map (·.2)).getD 0

/-- pandas `s.iloc[0]` on a series the engine has already checked to be nonempty. -/
def firstVal (s : Series) : ℚ := ((s.head?).map (·.2)).getD 0

/-- Lines 62-66 of `main.py`, `fetch_52w`: the trailing-one-year download as a
list of (High, Low) rows; empty download gives `(None, None)`, otherwise
`(round(High.max(), 2), round(Low.min(), 2))`. -/
def fetch_52w (download1y : String → List (ℚ × ℚ)) (symbol : String) : Option ℚ × Option ℚ :=
  match download1y symbol with
  | [] => (none, none)
  | p :: ps =>
    (some (round2 (((p :: ps).map (·.1)).foldl max p.1)),
     some (round2 (((p :: ps).map (·.2)).foldl min p.2)))

/-- Lines 91-119 of `main.py`, the body of the per-holding loop:
fetch the holding's closes (`fetch_series`, `None` = `NotAvailable`), align
them onto the benchmark index, enforce the 2-point minimum, build the table
row, and return the row together with the holding's value series
(`close * qty`). -/
def processHolding (fetch_series : String → ℤ → ℤ → Option Series)
    (download1y : String → List (ℚ × ℚ)) (dates : List ℤ) (start stop : ℤ)
    (s : Holding ℤ) : Except EngineError (HRow × Series) :=
  match fetch_series s.symbol start stop with
  | none => .error (.HoldingDataUnavailable s.stock)
  | some close0 =>
    let close := alignSeries close0 dates
    if close.length < 2 then .error (.InsufficientHoldingData s.stock)
    else
      let qty : ℚ := (s.qty : ℚ)
      let buy := s.buyPrice
      let invested := round2 (qty * buy)
      let current := round2 (qty * lastVal close)
      let pl := round2 (current - invested)
      let plPct := round2 ((current / invested - 1) * 100)
      let hl := fetch_52w download1y s.symbol
      .ok ({ stock := s.stock, qty := s.qty, buy := buy, cmp := round2 (lastVal close)
           , invested := invested, current := current, pl := pl, plPct := plPct
           , hi52 := hl.1, lo52 := hl.2 },
           close.map (fun p => (p.1, p.2 * qty)))

/-- The per-holding loop in list order; the first failing holding aborts the
whole computation (`st.stop()`). -/
def processAll (fetch_series : String → ℤ → ℤ → Option Series)
    (download1y : String → List (ℚ × ℚ)) (dates : List ℤ) (start stop : ℤ) :
    List (Holding ℤ) → Except EngineError (List (HRow × Series))
  | [] => .ok []
  | s :: rest =>
    match processHolding fetch_series download1y dates start stop s with
    | .error e => .error e
    | .ok pr =>
      match processAll fetch_series download1y dates start stop rest with
      | .error e => .error e
      | .ok prs => .ok (pr :: prs)

/-- Line 77 of `main.py`: the minimum buy date over the portfolio.
The engine block only runs when the portfolio is nonempty, so the empty case
is unreachable there. -/
def minBuyDate : List (Holding ℤ) → ℤ
  | [] => 0
  | s :: rest => rest.foldl (fun a h => min a h.buyDate) s.buyDate

/-- Line 78 of `main.py`: `start = max(earliest_buy, today - timedelta(days=PERIOD_MAP[period] * 2))`. -/
def startDate (pf : List (Holding ℤ)) (today : ℤ) (periodDays : ℤ) : ℤ :=
  max (minBuyDate pf) (today - periodDays * 2)

/-- The engine's output for one render cycle: the table rows, the aggregated
and benchmark series, the return series, and the KPI values of
`main.py` lines 121-138. -/
structure ValuationResult where
  rows : List HRow
  portfolio_value : Series
  niftyAligned : List (ℤ × Option ℚ)
  portRet : Series
  niftyRet : List (ℤ × Option ℚ)
  portLast : ℚ
  niftyLast : Option ℚ
  investedTotal : ℚ
  totalPl : ℚ
  totalPlPct : ℚ
  dayPl : ℚ
  dayPct : ℚ
deriving DecidableEq

/-- Lines 76-138 of `main.py`, the valuation engine (`compute` of the spec):
window derivation, benchmark fetch and 2-point check, per-holding loop,
aggregation and 2-point check, benchmark realignment, return series, KPIs.
`fetch_series` and `download1y` abstract the `yf.download` gateway. -/
def compute (fetch_series : String → ℤ → ℤ → Option Series)
    (download1y : String → List (ℚ × ℚ)) (today : ℤ) (periodDays : ℤ)
    (pf : List (Holding ℤ)) : Except EngineError ValuationResult :=
  let start := startDate pf today periodDays
  let stop := today
  match fetch_series BENCHMARK start stop with
  | none => .error .BenchmarkUnavailable
  | some nifty =>
    if nifty.length < 2 then .error .BenchmarkUnavailable
    else
      let dates := nifty.map (·.1)
      match processAll fetch_series download1y dates start stop pf with
      | .error e => .error e
      | .ok prs =>
        let rows := prs.map (·.1)
        let pv := concatSum (prs.map (·.2))
        if pv.length < 2 then .error .InsufficientAlignedData
        else
          let niftyA := reindexFfill nifty (pv.map (·.1))
          let portRet := pv.map (fun p => (p.1, (p.2 / firstVal pv - 1) * 100))
          let n0 : Option ℚ := (niftyA.head?.map (·.2)).getD none
          let niftyRet := niftyA.map (fun p => (p.1,
            match p.2, n0 with
            | some a, some b => some ((a / b - 1) * 100)
            | _, _ => none))
          let investedTotal := (rows.map (·.invested)).sum
          .ok { rows := rows
              , portfolio_value := pv
              , niftyAligned := niftyA
              , portRet := portRet
              , niftyRet := niftyRet
              , portLast := round2 (lastVal portRet)
              , niftyLast := ((niftyRet.getLast?.map (·.2)).getD none).map round2
              , investedTotal := investedTotal
              , totalPl := round2 (lastVal pv - investedTotal)
              , totalPlPct := round2 ((lastVal pv / investedTotal - 1) * 100)
              , dayPl := round2 (lastVal pv - prevVal pv)
              , dayPct := round2 ((lastVal pv / prevVal pv - 1) * 100) }

/-- Lines 48-54 of `main.py`, `fetch_price`: `None` for a falsy symbol
(`NIFTY_500.get("")` is `None`), `None` for an empty 2-day download,
otherwise the last close rounded to 2 decimals. -/
def fetch_price (download2d : String → List ℚ) (symbol : Option String) : Option ℚ :=
  match symbol with
  | none => none
  | some sym =>
    match download2d sym with
    | [] => none
    | c :: cs => some (round2 ((c :: cs).getLast (by simp)))

/-- Python `cmp or 0.0` (`main.py` line 230): `None` and `0.0` are falsy. -/
def pyOr0 (x : Option ℚ) : ℚ :=
  match x with
  | none => 0
  | some v => if v = 0 then 0 else v

/-- A calendar date as the add-stock form assembles it (`date(year, month, day)`). -/
structure SDate where
  year : ℤ
  month : ℤ
  day : ℤ
deriving DecidableEq

/-- Calendar order on year/month/day triples. -/
def SDate.le (a b : SDate) : Prop :=
  a.year < b.year ∨ (a.year = b.year ∧ (a.month < b.month ∨ (a.month = b.month ∧ a.day ≤ b.day)))

instance (a b : SDate) : Decidable (SDate.le a b) := by
  unfold SDate.le
  infer_instance

/-- The values the add-stock widgets deliver (`main.py` lines 222-240). -/
structure AddInput where
  stock : String
  qty : ℤ
  buyPrice : ℚ
  day : ℤ
  month : ℤ
  year : ℤ
deriving DecidableEq

/-- The ranges the add-stock widgets enforce: `st.number_input("Quantity",
min_value=1, step=1)`, the day selectbox `range(1, 32)`, the month selectbox
(12 months), and the year selectbox `range(2022, today.year + 1)`.
No widget constrains the assembled date against `today`. -/
def widgetOk (today : SDate) (inp : AddInput) : Prop :=
  1 ≤ inp.qty ∧ 1 ≤ inp.day ∧ inp.day ≤ 31 ∧ 1 ≤ inp.month ∧ inp.month ≤ 12 ∧
    2022 ≤ inp.year ∧ inp.year ≤ today.year

/-- Lines 242-251 of `main.py`: on "Add to Portfolio", if `stock` is nonempty
and `buy_price > 0`, append the holding dict; otherwise leave the portfolio
unchanged.  `symTable` is the `NIFTY_500` name→symbol dict. -/
def addStock (symTable : String → Option String) (pf : List (Holding SDate))
    (inp : AddInput) : List (Holding SDate) :=
  if inp.stock ≠ "" ∧ 0 < inp.buyPrice then
    pf ++ [{ stock := inp.stock, symbol := (symTable inp.stock).getD ("")
           , qty := inp.qty, buyPrice := inp.buyPrice
           , buyDate := { year := inp.year, month := inp.month, day := inp.day } }]
  else pf

/-- Erase the two 52-week fields of a row (for stating that nothing else
depends on the 52-week lookup). -/
def scrubRow (r : HRow) : HRow := { r with hi52 := none, lo52 := none }

/-- Erase the 52-week fields of every row of a result. -/
def scrub (r : ValuationResult) : ValuationResult :=
  { r with rows := r.rows.map scrubRow }

/-! ## Helper lemmas -/

theorem foldlMin_le_init (t : List (Holding ℤ)) (a : ℤ) :
    t.foldl (fun x h => min x h.buyDate) a ≤ a := by
  induction t generalizing a with
  | nil => exact le_refl a
  | cons s rest ih =>
    calc rest.foldl (fun x h => min x h.buyDate) (min a s.buyDate)
        ≤ min a s.buyDate := ih _
      _ ≤ a := min_le_left _ _

theorem foldlMin_le_mem (t : List (Holding ℤ)) (a : ℤ) (h : Holding ℤ) (hm : h ∈ t) :
    t.foldl (fun x s => min x s.buyDate) a ≤ h.buyDate := by
  induction t generalizing a with
  | nil => cases hm
  | cons s rest ih =>
    rcases List.mem_cons.mp hm with he | hr
    · subst he
      calc rest.foldl (fun x s => min x s.buyDate) (min a h.buyDate)
          ≤ min a h.buyDate := foldlMin_le_init rest _
        _ ≤ h.buyDate := min_le_right _ _
    · exact ih _ hr

theorem foldlMin_attained (t : List (Holding ℤ)) (a : ℤ) :
    t.foldl (fun x s => min x s.buyDate) a = a
      ∨ ∃ h ∈ t, t.foldl (fun x s => min x s.buyDate) a = h.buyDate := by
  induction t generalizing a with
  | nil => exact Or.inl rfl
  | cons s rest ih =>
    rcases ih (min a s.buyDate) with he | ⟨h, hm, he⟩
    · rcases min_cases a s.buyDate with ⟨hc, _⟩ | ⟨hc, _⟩
      · exact Or.inl (by simpa [hc] using he)
      · exact Or.inr ⟨s, List.mem_cons_self .., by simpa [hc] using he⟩
    · exact Or.inr ⟨h, List.mem_cons_of_mem _ hm, he⟩

theorem minBuyDate_le (h : Holding ℤ) (t : List (Holding ℤ)) (s : Holding ℤ)
    (hm : s ∈ h :: t) : minBuyDate (h :: t) ≤ s.buyDate := by
  rcases List.mem_cons.mp hm with he | hr
  · subst he
    exact foldlMin_le_init t _
  · exact foldlMin_le_mem t _ s hr

theorem minBuyDate_attained (h : Holding ℤ) (t : List (Holding ℤ)) :
    ∃ s ∈ h :: t, minBuyDate (h :: t) = s.buyDate := by
  rcases foldlMin_attained t h.buyDate with he | ⟨s, hm, he⟩
  · exact ⟨h, List.mem_cons_self .., he⟩
  · exact ⟨s, List.mem_cons_of_mem _ hm, he⟩

theorem processAll_congr (f₁ f₂ : String → ℤ → ℤ → Option Series)
    (g : String → List (ℚ × ℚ)) (dates : List ℤ) (start stop : ℤ)
    (l : List (Holding ℤ)) (hf : ∀ sym, f₁ sym start stop = f₂ sym start stop) :
    processAll f₁ g dates start stop l = processAll f₂ g dates start stop l := by
  induction l with
  | nil => rfl
  | cons s rest ih => simp only [processAll, processHolding, hf s.symbol, ih]

/-! ## C2 — window derivation -/

/-- C2: for every non-empty portfolio and every lookback label of
`PERIOD_MAP` (`5D:5, 1M:21, 6M:126, 1Y:252, 3Y:756`), the fetch window is
`start = max(min buy_date, today - 2 × lookback_days)` and `end = today`:
`minBuyDate` is the true minimum of the buy dates, `startDate` is the
maximum of it and the lookback lower bound, when the earliest buy date is
later than the lower bound the window starts at that buy date, and the
whole engine consults the gateway only at this window. -/
theorem C2_fetch_window (label : String) (days : ℤ) (hlab : (label, days) ∈ PERIOD_MAP)
    (h : Holding ℤ) (t : List (Holding ℤ)) (today : ℤ) :
    startDate (h :: t) today days = max (minBuyDate (h :: t)) (today - days * 2)
    ∧ (∀ s ∈ h :: t, minBuyDate (h :: t) ≤ s.buyDate)
    ∧ (∃ s ∈ h :: t, minBuyDate (h :: t) = s.buyDate)
    ∧ (today - days * 2 < minBuyDate (h :: t) →
        startDate (h :: t) today days = minBuyDate (h :: t))
    ∧ (∀ (f₁ f₂ : String → ℤ → ℤ → Option Series) (g : String → List (ℚ × ℚ)),
        (∀ sym, f₁ sym (startDate (h :: t) today days) today
              = f₂ sym (startDate (h :: t) today days) today) →
        compute f₁ g today days (h :: t) = compute f₂ g today days (h :: t)) := by
  refine ⟨rfl, minBuyDate_le h t, minBuyDate_attained h t, ?_, ?_⟩
  · intro hlt
    exact max_eq_left (le_of_lt hlt)
  · intro f₁ f₂ g hf
    simp only [compute, hf BENCHMARK,
      processAll_congr f₁ f₂ g _ (startDate (h :: t) today days) today _ hf]

/-- Witness for C2 at a concrete input. -/
theorem C2_fetch_window_witness :
    startDate [⟨"A", "ANS", 1, 1, 7⟩] 10 5
      = max (minBuyDate [⟨"A", "ANS", 1, 1, 7⟩]) (10 - 5 * 2) :=
  (C2_fetch_window ("5D") 5 (by decide) ⟨"A", "ANS", 1, 1, 7⟩ [] 10).1

/-! ## C4 — benchmark availability gate -/

theorem processHolding_error_cases (f : String → ℤ → ℤ → Option Series)
    (g : String → List (ℚ × ℚ)) (dates : List ℤ) (start stop : ℤ)
    (s : Holding ℤ) (e : EngineError)
    (he : processHolding f g dates start stop s = .error e) :
    e = .HoldingDataUnavailable s.stock ∨ e = .InsufficientHoldingData s.stock := by
  unfold processHolding at he
  cases hf : f s.symbol start stop with
  | none =>
    rw [hf] at he
    exact Or.inl (Except.error.injEq .. ▸ he).symm
  | some ser =>
    rw [hf] at he
    by_cases hl : (alignSeries ser dates).length < 2
    · simp only [hl, if_true] at he
      exact Or.inr (Except.error.injEq .. ▸ he).symm
    · simp only [hl, if_false] at he
      cases he

theorem processAll_error_cases (f : String → ℤ → ℤ → Option Series)
    (g : String → List (ℚ × ℚ)) (dates : List ℤ) (start stop : ℤ)
    (l : List (Holding ℤ)) (e : EngineError)
    (he : processAll f g dates start stop l = .error e) :
    ∃ s ∈ l, e = .HoldingDataUnavailable s.stock ∨ e = .InsufficientHoldingData s.stock := by
  induction l with
  | nil => cases he
  | cons s rest ih =>
    unfold processAll at he
    cases hp : processHolding f g dates start stop s with
    | error e₁ =>
      rw [hp] at he
      refine ⟨s, List.mem_cons_self .., ?_⟩
      cases he
      exact processHolding_error_cases f g dates start stop s e hp
    | ok pr =>
      rw [hp] at he
      cases hr : processAll f g dates start stop rest with
      | error e₁ =>
        rw [hr] at he
        cases he
        obtain ⟨s', hm, hcase⟩ := ih hr
        exact ⟨s', List.mem_cons_of_mem _ hm, hcase⟩
      | ok prs =>
        rw [hr] at he
        cases he

/-- C4: the engine fails with `BenchmarkUnavailable` — returning no partial
result, since `Except.error` carries nothing else — exactly when the
benchmark fetch over the derived window returns `NotAvailable` (`none`) or
a series of fewer than 2 points; a failure of any later stage surfaces as a
different error of the taxonomy. -/
theorem C4_benchmark_gate (f : String → ℤ → ℤ → Option Series)
    (g : String → List (ℚ × ℚ)) (today periodDays : ℤ) (pf : List (Holding ℤ)) :
    compute f g today periodDays pf = .error .BenchmarkUnavailable
      ↔ ∀ ser, f BENCHMARK (startDate pf today periodDays) today = some ser →
          ser.length < 2 := by
  unfold compute
  cases hb : f BENCHMARK (startDate pf today periodDays) today with
  | none =>
    simp [hb]
  | some nifty =>
    simp only [hb]
    by_cases hl : nifty.length < 2
    · simp [hl]
    · simp only [hl, if_false]
      constructor
      · intro he
        exfalso
        revert he
        cases hp : processAll f g (nifty.map (·.1)) (startDate pf today periodDays) today pf with
        | error e =>
          obtain ⟨s, _, hcase⟩ := processAll_error_cases _ _ _ _ _ _ _ hp
          rcases hcase with h1 | h1 <;> · rw [h1]; intro he; cases he
        | ok prs =>
          by_cases hpv : (concatSum (prs.map (·.2))).length < 2
          · simp only [hpv, if_true]
            intro he
            cases he
          · simp only [hpv, if_false]
            intro he
            cases he
      · intro hser
        exact absurd (hser nifty rfl) hl

/-- Witness for C4 (the spec's Scenario D): a single-point benchmark series
is rejected with `BenchmarkUnavailable`. -/
theorem C4_benchmark_gate_witness :
    compute (fun sym _ _ => if sym = BENCHMARK then some [((0 : ℤ), (1 : ℚ))] else none)
        (fun _ => []) 10 5 [⟨"A", "ANS", 1, 1, 7⟩] = .error .BenchmarkUnavailable := by
  refine (C4_benchmark_gate _ _ 10 5 _).mpr ?_
  intro ser hser
  rw [if_pos rfl] at hser
  injection hser with h1
  subst h1
  decide

/-! ## C3 — per-holding fetch, alignment and validation -/

theorem filterMap_concat_last (s : Series) (seen : List ℤ) (d : ℤ) :
    ((seen ++ [d]).filterMap (fun e => lookup s e)).getLast?
      = match lookup s d with
        | some x => some x
        | none => (seen.filterMap (fun e => lookup s e)).getLast? := by
  rw [List.filterMap_append]
  cases hl : lookup s d with
  | none => simp [hl]
  | some x => simp [hl, List.getLast?_append]

theorem align_go (s : Series) (ds : List ℤ) : ∀ (seen : List ℤ),
    dropna (ffill (ds.map (fun d => (d, lookup s d)))
        ((seen.filterMap (fun e => lookup s e)).getLast?))
      = alignSpecGo s seen ds := by
  induction ds with
  | nil => intro seen; rfl
  | cons d rest ih =>
    intro seen
    rw [List.map_cons]
    cases hl : lookup s d with
    | some x =>
      have hcarry : ((seen ++ [d]).filterMap (fun e => lookup s e)).getLast? = some x := by
        rw [filterMap_concat_last, hl]
      simp only [ffill, hl, dropna, List.filterMap_cons]
      rw [alignSpecGo, hcarry]
      have hrest := ih (seen ++ [d])
      rw [hcarry] at hrest
      simp only [dropna] at hrest
      rw [hrest]
      rfl
    | none =>
      have hcarry : ((seen ++ [d]).filterMap (fun e => lookup s e)).getLast?
          = (seen.filterMap (fun e => lookup s e)).getLast? := by
        rw [filterMap_concat_last, hl]
      have hrest := ih (seen ++ [d])
      rw [hcarry] at hrest
      rw [alignSpecGo, hcarry]
      cases hc : (seen.filterMap (fun e => lookup s e)).getLast? with
      | none =>
        rw [hc] at hrest
        simp only [ffill, hl, hc, dropna, List.filterMap_cons]
        simp only [dropna] at hrest
        rw [hrest]
        rfl
      | some v =>
        rw [hc] at hrest
        simp only [ffill, hl, hc, dropna, List.filterMap_cons]
        simp only [dropna] at hrest
        rw [hrest]
        rfl

theorem alignSeries_eq_alignSpec (s : Series) (dates : List ℤ) :
    alignSeries s dates = alignSpec s dates := by
  have h := align_go s dates []
  simpa [alignSeries, reindexFfill, alignSpec] using h

/-- C3: for each holding, a `NotAvailable` fetch aborts the computation with
`HoldingDataUnavailable` naming the holding; otherwise the fetched series is
reindexed onto the benchmark's date index with last-known values carried
forward and still-missing leading dates dropped (`alignSeries` agrees with
the spec-side description `alignSpec`), the holding aborts with
`InsufficientHoldingData` when fewer than 2 points remain, and otherwise the
loop keeps the aligned series (scaled by quantity); a per-holding error
propagates to the whole loop. -/
theorem C3_holding_validation (f : String → ℤ → ℤ → Option Series)
    (g : String → List (ℚ × ℚ)) (dates : List ℤ) (start stop : ℤ) (s : Holding ℤ) :
    (f s.symbol start stop = none →
       processHolding f g dates start stop s = .error (.HoldingDataUnavailable s.stock))
    ∧ (∀ ser, f s.symbol start stop = some ser →
         alignSeries ser dates = alignSpec ser dates
         ∧ ((alignSeries ser dates).length < 2 →
              processHolding f g dates start stop s
                = .error (.InsufficientHoldingData s.stock))
         ∧ (¬ (alignSeries ser dates).length < 2 →
              ∃ row, processHolding f g dates start stop s
                = .ok (row, (alignSeries ser dates).map (fun p => (p.1, p.2 * (s.qty : ℚ))))))
    ∧ (∀ rest e, processHolding f g dates start stop s = .error e →
         processAll f g dates start stop (s :: rest) = .error e) := by
  refine ⟨?_, ?_, ?_⟩
  · intro hf
    unfold processHolding
    rw [hf]
  · intro ser hf
    refine ⟨alignSeries_eq_alignSpec ser dates, ?_, ?_⟩
    · intro hlen
      unfold processHolding
      rw [hf]
      simp [hlen]
    · intro hlen
      unfold processHolding
      rw [hf]
      simp only [hlen, if_false]
      exact ⟨_, rfl⟩
  · intro rest e he
    unfold processAll
    rw [he]

/-- Witness for C3: a holding whose fetch returns `NotAvailable`. -/
theorem C3_holding_validation_witness :
    processHolding (fun _ _ _ => none) (fun _ => []) [0, 1] 0 1 ⟨"A", "ANS", 1, 1, 0⟩
      = .error (.HoldingDataUnavailable ("A")) :=
  (C3_holding_validation (fun _ _ _ => none) (fun _ => []) [0, 1] 0 1
    ⟨"A", "ANS", 1, 1, 0⟩).1 rfl

/-! ## C1 — portfolio aggregation -/

theorem mem_concatSum (ls : List Series) (d : ℤ) (v : ℚ) :
    (d, v) ∈ concatSum ls
      ↔ ((∃ s, s ∈ ls ∧ ∃ p, p ∈ s ∧ p.1 = d) ∧ v = sumAt ls d) := by
  unfold concatSum
  constructor
  · intro h
    obtain ⟨a, ha, he⟩ := List.mem_map.mp h
    obtain ⟨h1, h2⟩ := Prod.mk.injEq .. ▸ he
    subst h1
    refine ⟨?_, h2.symm⟩
    have ha' : a ∈ (ls.flatMap (fun s => s.map (·.1))).dedup :=
      (List.perm_insertionSort _ _).mem_iff.mp ha
    obtain ⟨s, hs, hms⟩ := List.mem_flatMap.mp (List.mem_dedup.mp ha')
    obtain ⟨p, hp, hpd⟩ := List.mem_map.mp hms
    exact ⟨s, hs, p, hp, hpd⟩
  · rintro ⟨⟨s, hs, p, hp, hpd⟩, rfl⟩
    refine List.mem_map.mpr ⟨d, ?_, rfl⟩
    refine (List.perm_insertionSort _ _).mem_iff.mpr ?_
    refine List.mem_dedup.mpr ?_
    exact List.mem_flatMap.mpr ⟨s, hs, List.mem_map.mpr ⟨p, hp, hpd⟩⟩

/-- C1 (amended): the aggregated portfolio series is an outer join — a date
belongs to it exactly when at least one holding's aligned value series has
that date, and its value there is the sum over just the holdings present at
that date (`sum(axis=1)` skips missing values rather than dropping the
row); the `InsufficientAlignedData` guard means every successful
computation carries at least 2 aggregated points. -/
theorem C1_aggregation_amended :
    (∀ (ls : List Series) (d : ℤ) (v : ℚ),
       (d, v) ∈ concatSum ls
         ↔ ((∃ s, s ∈ ls ∧ ∃ p, p ∈ s ∧ p.1 = d) ∧ v = sumAt ls d))
    ∧ (∀ (f : String → ℤ → ℤ → Option Series) (g : String → List (ℚ × ℚ))
         (today periodDays : ℤ) (pf : List (Holding ℤ)) (r : ValuationResult),
         compute f g today periodDays pf = .ok r → 2 ≤ r.portfolio_value.length) := by
  refine ⟨mem_concatSum, ?_⟩
  intro f g today periodDays pf r hok
  unfold compute at hok
  cases hb : f BENCHMARK (startDate pf today periodDays) today with
  | none =>
    simp only [hb] at hok
    cases hok
  | some nifty =>
    simp only [hb] at hok
    by_cases hl : nifty.length < 2
    · simp only [hl, if_true] at hok
      cases hok
    · simp only [hl, if_false] at hok
      cases hp : processAll f g (nifty.map (·.1)) (startDate pf today periodDays) today pf with
      | error e =>
        rw [hp] at hok
        cases hok
      | ok prs =>
        rw [hp] at hok
        by_cases hpv : (concatSum (prs.map (·.2))).length < 2
        · simp only [hpv, if_true] at hok
          cases hok
        · simp only [hpv, if_false] at hok
          injection hok with h1
          rw [← h1]
          exact Nat.le_of_not_lt hpv

/-- Gateway for the aggregation counterexample: benchmark trades on dates
0,1,2; holding A has closes on all three dates; holding B only from date 1. -/
def histJoin : String → ℤ → ℤ → Option Series := fun sym _ _ =>
  if sym = "^NSEI" then some [(0, 100), (1, 101), (2, 102)]
  else if sym = "ANS" then some [(0, 10), (1, 10), (2, 10)]
  else if sym = "BNS" then some [(1, 20), (2, 20)]
  else none

def hJoinA : Holding ℤ := ⟨"A", "ANS", 1, 10, 0⟩

def hJoinB : Holding ℤ := ⟨"B", "BNS", 1, 20, 0⟩

/-- C1 (counterexample): the aggregation is not an inner join on the date
axis.  Holding B's aligned series has no value at date 0 (its data and the
forward fill start at date 1), yet the computed portfolio series keeps
date 0 — valued with holding A's contribution alone — instead of dropping
it: the run succeeds with series `[(0,10),(1,30),(2,30)]`, not the
inner-join `[(1,30),(2,30)]`. -/
theorem C1_aggregation_counterexample :
    ((compute histJoin (fun _ => []) 2 5 [hJoinA, hJoinB]).toOption.map
        (fun r => r.portfolio_value))
      = some [(0, 10), (1, 30), (2, 30)]
    ∧ lookup (alignSeries [(1, 20), (2, 20)] [0, 1, 2]) 0 = none := by
  constructor
  · simp +decide [compute, startDate, minBuyDate, BENCHMARK, histJoin, hJoinA, hJoinB,
      processAll, processHolding, alignSeries, reindexFfill, ffill, dropna, lookup,
      concatSum, unionDates, sumAt, List.insertionSort, List.orderedInsert,
      fetch_52w, round2, lastVal, prevVal, firstVal, round_eq, Except.toOption]
    norm_num
  · simp +decide [alignSeries, reindexFfill, ffill, dropna, lookup]

/-- A minimal successful engine run used by witnesses: one holding, constant
unit prices on two benchmark dates. -/
def resS : ValuationResult :=
  ⟨[⟨"S", 1, 1, 1, 1, 1, 0, 0, none, none⟩], [(0, 1), (1, 1)],
   [(0, some 1), (1, some 1)], [(0, 0), (1, 0)], [(0, some 0), (1, some 0)],
   0, some 0, 1, 0, 0, 0, 0⟩

theorem compute_resS :
    compute (fun _ _ _ => some [(0, 1), (1, 1)]) (fun _ => []) 1 5
        [⟨"S", "SNS", 1, 1, 0⟩] = .ok resS := by
  simp +decide [compute, startDate, minBuyDate, BENCHMARK, processAll, processHolding,
    alignSeries, reindexFfill, ffill, dropna, lookup, concatSum, unionDates, sumAt,
    List.insertionSort, List.orderedInsert, fetch_52w, round2, lastVal, prevVal,
    firstVal, round_eq, resS]
  norm_num

/-- Witness for the amended C1 at a concrete successful run. -/
theorem C1_aggregation_amended_witness : 2 ≤ resS.portfolio_value.length :=
  C1_aggregation_amended.2 (fun _ _ _ => some [(0, 1), (1, 1)]) (fun _ => []) 1 5
    [⟨"S", "SNS", 1, 1, 0⟩] resS compute_resS

/-! ## C5 — holding invariant and the add-stock path -/

def nifty500Table : String → Option String := fun s =>
  if s = "TCS" then some ("TCSNS") else none

/-- C5 (counterexample): the add-stock path does not enforce "buy_date not
in the future".  With today = 2026-10-12, the widgets accept day 31, month
December, year 2026 (the year selectbox caps at the current year but no
widget checks month or day against today), the button guard accepts the
input, and the appended holding's buy date 2026-12-31 is strictly after
today. -/
theorem C5_invariant_counterexample :
    widgetOk ⟨2026, 10, 12⟩ ⟨"TCS", 1, 100, 31, 12, 2026⟩
    ∧ (addStock nifty500Table [] ⟨"TCS", 1, 100, 31, 12, 2026⟩).map (·.buyDate)
        = [⟨2026, 12, 31⟩]
    ∧ ¬ SDate.le ⟨2026, 12, 31⟩ ⟨2026, 10, 12⟩ := by
  refine ⟨by unfold widgetOk; decide, ?_, by decide⟩
  simp +decide [addStock, nifty500Table]

/-- C5 (amended): for every input the widgets can deliver, the add-stock
operation either leaves the portfolio unchanged or appends exactly one
holding with `quantity > 0` and `buy_price > 0` (and a year no later than
the current year) — so appending preserves these two invariant clauses for
every holding in the portfolio — but it does not guarantee the appended
buy date is not in the future. -/
theorem C5_invariant_amended (symTable : String → Option String)
    (pf : List (Holding SDate)) (inp : AddInput) (today : SDate)
    (hw : widgetOk today inp) :
    (addStock symTable pf inp = pf
      ∨ ∃ h, addStock symTable pf inp = pf ++ [h]
          ∧ 0 < h.qty ∧ 0 < h.buyPrice ∧ h.buyDate.year ≤ today.year)
    ∧ ((∀ h ∈ pf, 0 < h.qty ∧ 0 < h.buyPrice) →
        ∀ h ∈ addStock symTable pf inp, 0 < h.qty ∧ 0 < h.buyPrice) := by
  obtain ⟨hq, _, _, _, _, _, hy⟩ := hw
  constructor
  · unfold addStock
    by_cases hc : inp.stock ≠ "" ∧ 0 < inp.buyPrice
    · rw [if_pos hc]
      exact Or.inr ⟨_, rfl, lt_of_lt_of_le one_pos hq |>.trans_le (le_refl _), hc.2, hy⟩
    · rw [if_neg hc]
      exact Or.inl rfl
  · intro hpf h hm
    unfold addStock at hm
    by_cases hc : inp.stock ≠ "" ∧ 0 < inp.buyPrice
    · rw [if_pos hc] at hm
      rcases List.mem_append.mp hm with hin | hnew
      · exact hpf h hin
      · rcases List.mem_singleton.mp hnew with rfl
        exact ⟨lt_of_lt_of_le one_pos hq, hc.2⟩
    · rw [if_neg hc] at hm
      exact hpf h hm

/-- Witness for the amended C5 at a concrete accepted input. -/
theorem C5_invariant_amended_witness :
    (addStock nifty500Table [] ⟨"TCS", 2, 50, 1, 1, 2024⟩ = []
      ∨ ∃ h, addStock nifty500Table [] ⟨"TCS", 2, 50, 1, 1, 2024⟩ = [] ++ [h]
          ∧ 0 < h.qty ∧ 0 < h.buyPrice ∧ h.buyDate.year ≤ (⟨2026, 10, 12⟩ : SDate).year)
    ∧ ((∀ h ∈ ([] : List (Holding SDate)), 0 < h.qty ∧ 0 < h.buyPrice) →
        ∀ h ∈ addStock nifty500Table [] ⟨"TCS", 2, 50, 1, 1, 2024⟩,
          0 < h.qty ∧ 0 < h.buyPrice) :=
  C5_invariant_amended nifty500Table [] ⟨"TCS", 2, 50, 1, 1, 2024⟩ ⟨2026, 10, 12⟩
    (by unfold widgetOk; decide)

/-! ## C6, C7 — per-holding valuation arithmetic -/

theorem processHolding_ok_fields (f : String → ℤ → ℤ → Option Series)
    (g : String → List (ℚ × ℚ)) (dates : List ℤ) (start stop : ℤ)
    (s : Holding ℤ) (row : HRow) (ser : Series)
    (hok : processHolding f g dates start stop s = .ok (row, ser)) :
    row.invested = round2 ((s.qty : ℚ) * s.buyPrice)
    ∧ row.pl = round2 (row.current - row.invested)
    ∧ row.plPct = round2 ((row.current / row.invested - 1) * 100) := by
  unfold processHolding at hok
  cases hf : f s.symbol start stop with
  | none =>
    rw [hf] at hok
    cases hok
  | some close0 =>
    rw [hf] at hok
    by_cases hlen : (alignSeries close0 dates).length < 2
    · simp only [hlen, if_true] at hok
      cases hok
    · simp only [hlen, if_false] at hok
      injection hok with h1
      obtain ⟨h2, _⟩ := Prod.mk.injEq .. ▸ h1
      subst h2
      exact ⟨rfl, rfl, rfl⟩

/-- C6 (counterexample): the engine rounds the invested amount to 2 decimal
places before anything is displayed: with quantity 1 and buy price 100.001
the computed `invested` is 100, not `q × b = 100.001`. -/
theorem C6_invested_counterexample :
    ((processHolding (fun _ _ _ => some [(0, 50), (1, 50)]) (fun _ => []) [0, 1] 0 1
        ⟨"X", "XNS", 1, 100 + 1 / 1000, 0⟩).toOption.map (fun pr => pr.1.invested))
      = some 100
    ∧ ((⟨"X", "XNS", 1, 100 + 1 / 1000, 0⟩ : Holding ℤ).qty : ℚ)
        * (⟨"X", "XNS", 1, 100 + 1 / 1000, 0⟩ : Holding ℤ).buyPrice ≠ 100 := by
  constructor
  · simp +decide [processHolding, alignSeries, reindexFfill, ffill, dropna, lookup,
      fetch_52w, round2, lastVal, round_eq, Except.toOption]
    norm_num
  · norm_num

/-- C6 (amended): the engine computes `invested = round(q × b, 2)` — rounded
to 2 decimals inside the engine (`main.py` line 104) — which coincides with
the exact product `q × b` precisely when that product has at most 2 decimal
places. -/
theorem C6_invested_amended (f : String → ℤ → ℤ → Option Series)
    (g : String → List (ℚ × ℚ)) (dates : List ℤ) (start stop : ℤ)
    (s : Holding ℤ) (row : HRow) (ser : Series)
    (hok : processHolding f g dates start stop s = .ok (row, ser)) :
    row.invested = round2 ((s.qty : ℚ) * s.buyPrice)
    ∧ (∀ z : ℤ, (s.qty : ℚ) * s.buyPrice * 100 = z →
        row.invested = (s.qty : ℚ) * s.buyPrice) := by
  obtain ⟨h1, _, _⟩ := processHolding_ok_fields f g dates start stop s row ser hok
  refine ⟨h1, ?_⟩
  intro z hz
  rw [h1]
  unfold round2
  rw [hz, round_intCast, ← hz]
  ring

/-- Scenario A gateway: two benchmark dates with closes 100 then 110. -/
def hist7 : String → ℤ → ℤ → Option Series := fun _ _ _ => some [(0, 100), (1, 110)]

def h7 : Holding ℤ := ⟨"TCS", "TCSNS", 10, 100, 0⟩

def row7 : HRow := ⟨"TCS", 10, 100, 110, 1000, 1100, 100, 10, none, none⟩

def ser7 : Series := [(0, 1000), (1, 1100)]

/-- Scenario A of the spec evaluated on the loop body: qty 10, buy price
100, current price 110 give invested 1000, current 1100, P/L 100 and
P/L% 10. -/
theorem processHolding_scenarioA :
    processHolding hist7 (fun _ => []) [0, 1] 0 1 h7 = .ok (row7, ser7) := by
  simp +decide [processHolding, hist7, h7, row7, ser7, alignSeries, reindexFfill,
    ffill, dropna, lookup, fetch_52w, round2, lastVal, round_eq]
  norm_num

/-- Witness for the amended C6: at scenario A the product has no extra
decimals and invested equals `q × b` exactly. -/
theorem C6_invested_amended_witness :
    row7.invested = ((h7.qty : ℚ) * h7.buyPrice) :=
  (C6_invested_amended hist7 (fun _ => []) [0, 1] 0 1 h7 row7 ser7
      processHolding_scenarioA).2 100000 (by norm_num [h7])

/-- C7: for every row of a successful per-holding computation with positive
invested amount, `current_value = invested × (1 + pl_pct/100)` holds within
the tolerance forced by rounding `pl_pct` to 2 decimal places:
the two sides differ by at most `invested / 20000`. -/
theorem C7_pl_pct_relation (f : String → ℤ → ℤ → Option Series)
    (g : String → List (ℚ × ℚ)) (dates : List ℤ) (start stop : ℤ)
    (s : Holding ℤ) (row : HRow) (ser : Series)
    (hok : processHolding f g dates start stop s = .ok (row, ser))
    (hpos : 0 < row.invested) :
    |row.current - row.invested * (1 + row.plPct / 100)| ≤ row.invested / 20000 := by
  obtain ⟨_, _, hp⟩ := processHolding_ok_fields f g dates start stop s row ser hok
  have hI : row.invested ≠ 0 := ne_of_gt hpos
  have hround : |(row.current / row.invested - 1) * 100 - row.plPct| ≤ 1 / 200 := by
    rw [hp]
    unfold round2
    set y := (row.current / row.invested - 1) * 100 with hy
    have habs := abs_sub_round (y * 100)
    have hrw : y - (round (y * 100) : ℚ) / 100 = (y * 100 - (round (y * 100) : ℚ)) / 100 := by
      ring
    rw [hrw, abs_div]
    rw [show |(100 : ℚ)| = 100 from by norm_num]
    linarith
  have key : row.current - row.invested * (1 + row.plPct / 100)
      = row.invested * (((row.current / row.invested - 1) * 100 - row.plPct) / 100) := by
    field_simp
    ring
  rw [key, abs_mul, abs_of_pos hpos, abs_div]
  rw [show |(100 : ℚ)| = 100 from by norm_num]
  have hmul := mul_le_mul_of_nonneg_left hround (le_of_lt hpos)
  have hnn : (0 : ℚ) ≤ |(row.current / row.invested - 1) * 100 - row.plPct| := abs_nonneg _
  nlinarith

/-- Witness for C7 (Scenario A): invested 1000, current 1100, P/L 100,
P/L% 10, and the algebraic relation holds within tolerance. -/
theorem C7_pl_pct_relation_witness :
    (row7.invested = 1000 ∧ row7.current = 1100 ∧ row7.pl = 100 ∧ row7.plPct = 10)
    ∧ |row7.current - row7.invested * (1 + row7.plPct / 100)| ≤ row7.invested / 20000 :=
  ⟨⟨rfl, rfl, rfl, rfl⟩,
   C7_pl_pct_relation hist7 (fun _ => []) [0, 1] 0 1 h7 row7 ser7
     processHolding_scenarioA (by norm_num [row7])⟩

/-! ## C8 — one-day-change KPI -/

/-- C8 (amended): in every successful computation the aggregated series has
at least two points and the one-day KPIs are the delta and the ratio-based
percent of its last two points, each rounded to 2 decimal places
(`main.py` lines 137-138). -/
theorem C8_day_change_amended (f : String → ℤ → ℤ → Option Series)
    (g : String → List (ℚ × ℚ)) (today periodDays : ℤ) (pf : List (Holding ℤ))
    (r : ValuationResult) (hok : compute f g today periodDays pf = .ok r) :
    2 ≤ r.portfolio_value.length
    ∧ r.dayPl = round2 (lastVal r.portfolio_value - prevVal r.portfolio_value)
    ∧ r.dayPct = round2 ((lastVal r.portfolio_value / prevVal r.portfolio_value - 1) * 100) := by
  unfold compute at hok
  cases hb : f BENCHMARK (startDate pf today periodDays) today with
  | none =>
    simp only [hb] at hok
    cases hok
  | some nifty =>
    simp only [hb] at hok
    by_cases hl : nifty.length < 2
    · simp only [hl, if_true] at hok
      cases hok
    · simp only [hl, if_false] at hok
      cases hp : processAll f g (nifty.map (·.1)) (startDate pf today periodDays) today pf with
      | error e =>
        rw [hp] at hok
        cases hok
      | ok prs =>
        rw [hp] at hok
        by_cases hpv : (concatSum (prs.map (·.2))).length < 2
        · simp only [hpv, if_true] at hok
          cases hok
        · simp only [hpv, if_false] at hok
          injection hok with h1
          subst h1
          exact ⟨Nat.le_of_not_lt hpv, rfl, rfl⟩

/-- Gateway for the one-day-change counterexample: constant benchmark, one
holding whose portfolio value moves from 1000 to 950.001. -/
def hist8 : String → ℤ → ℤ → Option Series := fun sym _ _ =>
  if sym = "^NSEI" then some [(0, 1), (1, 1)] else some [(0, 1000), (1, 950 + 1 / 1000)]

/-- C8 (counterexample): the one-day-change KPI is not the exact difference
of the last two portfolio values: with values 1000 then 950.001 the exact
delta is -49.999 but the engine reports `round(-49.999, 2) = -50`. -/
theorem C8_day_change_counterexample :
    ((compute hist8 (fun _ => []) 1 5 [⟨"Y", "YNS", 1, 1000, 0⟩]).toOption.map
        (fun r => (r.dayPl, lastVal r.portfolio_value - prevVal r.portfolio_value)))
      = some (-50, -(49999 / 1000))
    ∧ (-50 : ℚ) ≠ -(49999 / 1000) := by
  constructor
  · simp +decide [compute, startDate, minBuyDate, BENCHMARK, hist8, processAll,
      processHolding, alignSeries, reindexFfill, ffill, dropna, lookup, concatSum,
      unionDates, sumAt, List.insertionSort, List.orderedInsert, fetch_52w, round2,
      lastVal, prevVal, firstVal, round_eq, Except.toOption]
    norm_num
  · norm_num

/-- Gateway for the spec's Scenario E: portfolio value 1000 at date 0 and
950 at date 1. -/
def histE : String → ℤ → ℤ → Option Series := fun sym _ _ =>
  if sym = "^NSEI" then some [(0, 1), (1, 1)] else some [(0, 1000), (1, 950)]

def hE : Holding ℤ := ⟨"E", "ENS", 1, 1000, 0⟩

/-- The full result of the Scenario E run. -/
def resE : ValuationResult :=
  ⟨[⟨"E", 1, 1000, 950, 1000, 950, -50, -5, none, none⟩], [(0, 1000), (1, 950)],
   [(0, some 1), (1, some 1)], [(0, 0), (1, -5)], [(0, some 0), (1, some 0)],
   -5, some 0, 1000, -50, -5, -50, -5⟩

theorem compute_scenarioE :
    compute histE (fun _ => []) 1 5 [hE] = .ok resE := by
  simp +decide [compute, startDate, minBuyDate, BENCHMARK, histE, hE, processAll,
    processHolding, alignSeries, reindexFfill, ffill, dropna, lookup, concatSum,
    unionDates, sumAt, List.insertionSort, List.orderedInsert, fetch_52w, round2,
    lastVal, prevVal, firstVal, round_eq, resE]
  norm_num

/-- Witness for the amended C8 (Scenario E): values 1000 then 950 give
one-day change -50 and one-day percent -5. -/
theorem C8_day_change_amended_witness :
    (resE.dayPl = -50 ∧ resE.dayPct = -5)
    ∧ resE.dayPl = round2 (lastVal resE.portfolio_value - prevVal resE.portfolio_value) :=
  ⟨⟨rfl, rfl⟩,
   (C8_day_change_amended histE (fun _ => []) 1 5 [hE] resE compute_scenarioE).2.1⟩

/-! ## C9 — latest-close lookup -/

/-- C9: `fetch_price` yields `NotAvailable` (`None`) — a value, not an
exception — for a falsy symbol or an empty download, and its only consumer
is the pre-filled default of the buy-price widget, `cmp or 0.0`, which is
total and maps `None` to `0.0`; the engine (`compute`) takes no
latest-close input at all, so the outcome cannot propagate as an error. -/
theorem C9_latest_close (download2d : String → List ℚ) (symbol : Option String) :
    fetch_price download2d none = none
    ∧ (∀ sym, symbol = some sym → download2d sym = [] →
        fetch_price download2d symbol = none)
    ∧ pyOr0 (fetch_price download2d symbol) = (fetch_price download2d symbol).getD 0
    ∧ (fetch_price download2d symbol = none → pyOr0 (fetch_price download2d symbol) = 0) := by
  refine ⟨rfl, ?_, ?_, ?_⟩
  · rintro sym rfl hd
    simp only [fetch_price, hd]
  · cases hf : fetch_price download2d symbol with
    | none => rfl
    | some v =>
      by_cases hv : v = 0
      · simp [pyOr0, hv]
      · simp [pyOr0, hv]
  · intro hf
    rw [hf]
    rfl

/-- Witness for C9: an empty download yields a `0.0` pre-filled default. -/
theorem C9_latest_close_witness :
    pyOr0 (fetch_price (fun _ => []) (some ("X"))) = 0 :=
  (C9_latest_close (fun _ => []) (some ("X"))).2.2.2
    ((C9_latest_close (fun _ => []) (some ("X"))).2.1 ("X") rfl rfl)

/-! ## C10 — 52-week lookup never terminal -/

theorem processHolding_scrub (f : String → ℤ → ℤ → Option Series)
    (g₁ g₂ : String → List (ℚ × ℚ)) (dates : List ℤ) (start stop : ℤ)
    (s : Holding ℤ) :
    (processHolding f g₁ dates start stop s).map (fun pr => (scrubRow pr.1, pr.2))
      = (processHolding f g₂ dates start stop s).map (fun pr => (scrubRow pr.1, pr.2)) := by
  unfold processHolding
  cases hf : f s.symbol start stop with
  | none => rfl
  | some close0 =>
    by_cases hlen : (alignSeries close0 dates).length < 2
    · simp only [hlen, if_true]
    · simp only [hlen, if_false, Except.map]
      simp [scrubRow]

theorem processAll_scrub (f : String → ℤ → ℤ → Option Series)
    (g₁ g₂ : String → List (ℚ × ℚ)) (dates : List ℤ) (start stop : ℤ)
    (l : List (Holding ℤ)) :
    (processAll f g₁ dates start stop l).map (List.map (fun pr => (scrubRow pr.1, pr.2)))
      = (processAll f g₂ dates start stop l).map (List.map (fun pr => (scrubRow pr.1, pr.2))) := by
  induction l with
  | nil => rfl
  | cons s rest ih =>
    unfold processAll
    have hhead := processHolding_scrub f g₁ g₂ dates start stop s
    cases h1 : processHolding f g₁ dates start stop s with
    | error e =>
      cases h2 : processHolding f g₂ dates start stop s with
      | error e₂ =>
        rw [h1, h2] at hhead
        simp only [Except.map] at hhead
        injection hhead with he
        subst he
        rfl
      | ok pr₂ =>
        rw [h1, h2] at hhead
        simp only [Except.map] at hhead
        cases hhead
    | ok pr₁ =>
      cases h2 : processHolding f g₂ dates start stop s with
      | error e₂ =>
        rw [h1, h2] at hhead
        simp only [Except.map] at hhead
        cases hhead
      | ok pr₂ =>
        rw [h1, h2] at hhead
        simp only [Except.map] at hhead
        injection hhead with he
        cases hr1 : processAll f g₁ dates start stop rest with
        | error e =>
          cases hr2 : processAll f g₂ dates start stop rest with
          | error e₂ =>
            rw [hr1, hr2] at ih
            simp only [Except.map] at ih
            injection ih with hie
            subst hie
            rfl
          | ok prs₂ =>
            rw [hr1, hr2] at ih
            simp only [Except.map] at ih
            cases ih
        | ok prs₁ =>
          cases hr2 : processAll f g₂ dates start stop rest with
          | error e₂ =>
            rw [hr1, hr2] at ih
            simp only [Except.map] at ih
            cases ih
          | ok prs₂ =>
            rw [hr1, hr2] at ih
            simp only [Except.map] at ih
            injection ih with hie
            simp only [Except.map, List.map_cons]
            rw [he, hie]

theorem compute_scrub (f : String → ℤ → ℤ → Option Series)
    (g₁ g₂ : String → List (ℚ × ℚ)) (today periodDays : ℤ) (pf : List (Holding ℤ)) :
    (compute f g₁ today periodDays pf).map scrub
      = (compute f g₂ today periodDays pf).map scrub := by
  unfold compute
  cases hb : f BENCHMARK (startDate pf today periodDays) today with
  | none => simp only [hb]
  | some nifty =>
    simp only [hb]
    by_cases hl : nifty.length < 2
    · simp only [hl, if_true]
    · simp only [hl, if_false]
      have hall := processAll_scrub f g₁ g₂ (nifty.map (·.1)) (startDate pf today periodDays)
        today pf
      cases h1 : processAll f g₁ (nifty.map (·.1)) (startDate pf today periodDays) today pf with
      | error e =>
        cases h2 : processAll f g₂ (nifty.map (·.1)) (startDate pf today periodDays) today pf with
        | error e₂ =>
          rw [h1, h2] at hall
          simp only [Except.map] at hall
          injection hall with he
          subst he
          simp only [h1, h2]
        | ok prs₂ =>
          rw [h1, h2] at hall
          simp only [Except.map] at hall
          cases hall
      | ok prs₁ =>
        cases h2 : processAll f g₂ (nifty.map (·.1)) (startDate pf today periodDays) today pf with
        | error e₂ =>
          rw [h1, h2] at hall
          simp only [Except.map] at hall
          cases hall
        | ok prs₂ =>
          rw [h1, h2] at hall
          simp only [Except.map] at hall
          injection hall with hmaps
          have hseries : prs₁.map (fun pr => pr.2) = prs₂.map (fun pr => pr.2) := by
            have hc := congrArg (List.map (fun q : HRow × Series => q.2)) hmaps
            simpa [List.map_map, Function.comp] using hc
          have hrows : prs₁.map (fun pr => scrubRow pr.1) = prs₂.map (fun pr => scrubRow pr.1) := by
            have hc := congrArg (List.map (fun q : HRow × Series => q.1)) hmaps
            simpa [List.map_map, Function.comp] using hc
          have hinv : prs₁.map (fun pr => pr.1.invested) = prs₂.map (fun pr => pr.1.invested) := by
            have hc := congrArg (List.map (fun q : HRow × Series => q.1.invested)) hmaps
            simpa [List.map_map, Function.comp, scrubRow] using hc
          simp only [h1, h2]
          rw [show (List.map (fun x : HRow × Series => x.2) prs₁)
                = (List.map (fun x : HRow × Series => x.2) prs₂) from hseries]
          have hrowsmap : List.map scrubRow (List.map (fun x : HRow × Series => x.1) prs₁)
              = List.map scrubRow (List.map (fun x : HRow × Series => x.1) prs₂) := by
            simp only [List.map_map]
            simpa [Function.comp] using hrows
          have hsum : (List.map (fun x : HRow => x.invested)
                  (List.map (fun x : HRow × Series => x.1) prs₁)).sum
              = (List.map (fun x : HRow => x.invested)
                  (List.map (fun x : HRow × Series => x.1) prs₂)).sum := by
            simp only [List.map_map]
            simpa [Function.comp] using congrArg List.sum hinv
          by_cases hpv : (concatSum (prs₂.map (fun x => x.2))).length < 2
          · simp only [hpv, if_true]
          · simp only [hpv, if_false, Except.map]
            simp only [scrub]
            rw [hrowsmap, hsum]

/-- C10: an empty trailing-one-year download gives `(None, None)` from
`fetch_52w`; the engine's outcome — success or failure, every series, KPI
and every row field other than the two 52-week columns — is identical under
any two 52-week gateways (`compute` results agree after erasing `hi52`/
`lo52`); and a holding whose 52-week download is empty still yields a
successful row, carrying `None` in both 52-week fields. -/
theorem C10_52w_nonterminal :
    (∀ (g : String → List (ℚ × ℚ)) (sym : String),
       g sym = [] → fetch_52w g sym = (none, none))
    ∧ (∀ (f : String → ℤ → ℤ → Option Series) (g₁ g₂ : String → List (ℚ × ℚ))
         (today periodDays : ℤ) (pf : List (Holding ℤ)),
        (compute f g₁ today periodDays pf).map scrub
          = (compute f g₂ today periodDays pf).map scrub)
    ∧ (∀ (f : String → ℤ → ℤ → Option Series) (g : String → List (ℚ × ℚ))
         (dates : List ℤ) (start stop : ℤ) (s : Holding ℤ) (row : HRow) (ser : Series),
        g s.symbol = [] →
        processHolding f g dates start stop s = .ok (row, ser) →
        row.hi52 = none ∧ row.lo52 = none) := by
  refine ⟨?_, compute_scrub, ?_⟩
  · intro g sym hg
    unfold fetch_52w
    rw [hg]
  · intro f g dates start stop s row ser hg hok
    unfold processHolding at hok
    cases hf : f s.symbol start stop with
    | none =>
      rw [hf] at hok
      cases hok
    | some close0 =>
      rw [hf] at hok
      by_cases hlen : (alignSeries close0 dates).length < 2
      · simp only [hlen, if_true] at hok
        cases hok
      · simp only [hlen, if_false] at hok
        injection hok with h1
        obtain ⟨h2, _⟩ := Prod.mk.injEq .. ▸ h1
        subst h2
        constructor
        · show (fetch_52w g s.symbol).1 = none
          unfold fetch_52w
          rw [hg]
        · show (fetch_52w g s.symbol).2 = none
          unfold fetch_52w
          rw [hg]

/-- Witness for C10: scenario A runs with an empty 52-week gateway and its
row carries `None` in both 52-week fields. -/
theorem C10_52w_nonterminal_witness : row7.hi52 = none ∧ row7.lo52 = none :=
  C10_52w_nonterminal.2.2 hist7 (fun _ => []) [0, 1] 0 1 h7 row7 ser7 rfl
    processHolding_scenarioA
